import Mathlib

/-!
Verification of the voxscribe chunked-transcription pipeline
(src/transcribe.ts, src/audioUtils.ts) against its natural-language
specification.

The TypeScript source is shallowly embedded: every external effect
(ffmpeg/ffprobe invocations, file-system calls, the remote recognition
service) is abstracted as an oracle recorded in an environment structure,
and each pipeline function becomes a pure Lean function of that
environment.  Machine numbers from the source are modelled as ℕ (byte
sizes, counts) and ℚ (probed durations, which `parseFloat` may return
fractional).
-/

namespace Voxscribe

/-- Constant from src/transcribe.ts line 13: `TARGET_CHUNK_DURATION_SECONDS = 300`. -/
def TARGET_CHUNK_DURATION_SECONDS : ℕ := 300

/-- Constant from src/transcribe.ts line 14: `MIN_CHUNK_DURATION_SECONDS = 60`. -/
def MIN_CHUNK_DURATION_SECONDS : ℕ := 60

/-- Constant from src/transcribe.ts line 15: `MAX_CHUNK_SIZE_BYTES = 150 * 1024 * 1024`. -/
def MAX_CHUNK_SIZE_BYTES : ℕ := 150 * 1024 * 1024

/-- Constant from src/transcribe.ts line 16: `MAX_CONCURRENT_TRANSCRIPTIONS = 3`. -/
def MAX_CONCURRENT_TRANSCRIPTIONS : ℕ := 3

/-! ### Result aggregation (src/transcribe.ts lines 278-328)

A `ChunkResult` is the record `{ index, transcription, rawData }` produced by
one transcription task; `rawData` is nullable (`null` on failure), modelled
as `Option α` with `α` the opaque payload type. -/

/-- The per-chunk record `{ index, transcription, rawData }` from
src/transcribe.ts lines 301/305/308. -/
structure ChunkResult (α : Type) where
  index : ℕ
  transcription : String
  rawData : Option α
deriving DecidableEq, Repr

/-- The sort `results.sort((a, b) => a.index - b.index)` of
src/transcribe.ts line 316: sort ascending by `index`.  On lists with
pairwise-distinct indices every comparison sort produces this unique
result, so insertion sort is a faithful model of `Array.prototype.sort`
with that comparator. -/
def sortResults {α : Type} (l : List (ChunkResult α)) : List (ChunkResult α) :=
  List.insertionSort (fun a b => a.index ≤ b.index) l

/-- The transcript aggregation of src/transcribe.ts lines 318-322:
`results.map(r => r.transcription).filter(t => t.length > 0).join(" ").trim()`
applied after the index sort. -/
def combinedTranscription {α : Type} (l : List (ChunkResult α)) : String :=
  (String.intercalate " "
    (((sortResults l).map (fun r => r.transcription)).filter
      (fun t => 0 < t.length))).trim

/-- The raw-payload collection of src/transcribe.ts lines 324-328:
`for (const result of results) if (result.rawData) rawResults.push(result.rawData)`
iterated over the index-sorted list. -/
def collectRawResults {α : Type} (l : List (ChunkResult α)) : List α :=
  (sortResults l).filterMap (fun r => r.rawData)

/-! ### The segmenter `chunkAudioFile` (src/transcribe.ts lines 77-182)

External effects are abstracted in `ChunkEnv`:
- `aborted`: the state of the `AbortSignal`, modelled as constant over the
  call (none of the claims below concern mid-call cancellation of the
  segmenter);
- `fileSize`: `fs.promises.stat(filePath).size`;
- `duration`: the probed duration from `getAudioDuration` (0 on failure);
- `singleConv`: the byte size of `chunk_000.wav` written by the
  single-chunk ffmpeg conversion (lines 104-116), `none` when the command
  fails;
- `wavSeg d`: the byte sizes of the `.wav` chunk files found in the temp
  directory (lexicographically sorted) after the ffmpeg segment command
  with `-segment_time d` (lines 122-130), `none` when the command fails;
- `mp3Seg d`: likewise for the MP3 segment command (lines 160-168).
The oracle view is deliberately free: the spec itself says produced chunk
sizes depend on the transcoder's variable-bitrate behaviour. -/

/-- Oracle environment for one `chunkAudioFile` call. -/
structure ChunkEnv where
  aborted : Bool
  fileSize : ℕ
  duration : ℚ
  singleConv : Option ℕ
  wavSeg : ℕ → Option (List ℕ)
  mp3Seg : ℕ → Option (List ℕ)

/-- Which code path produced the returned chunk list: the single-chunk
fast path (lines 103-117), the WAV segmentation tier (lines 121-154), or
the MP3 fallback tier (lines 158-177). -/
inductive Tier where
  | single
  | wavTier
  | mp3Tier
deriving DecidableEq, Repr

/-- One external-tool action performed by `chunkAudioFile`, in order. -/
inductive ChunkStep where
  | singleConv
  | wavSeg (d : ℕ)
  | deleteWav
  | mp3Seg (d : ℕ)
deriving DecidableEq, Repr

/-- Errors thrown by `chunkAudioFile`: the `AbortError` of line 58, or the
terminal `"Failed to chunk audio file"` error of lines 179-181. -/
inductive ChunkError where
  | abortError
  | chunkingFailed
deriving DecidableEq, Repr

/-- A successful return `{ chunks, format }` (chunk byte sizes stand in
for the file names), tagged with the producing tier. -/
structure ChunkOutcome where
  chunks : List ℕ
  format : String
  tier : Tier
deriving DecidableEq, Repr

/-- The chunk-duration planning of src/transcribe.ts lines 89-100:
start from `TARGET_CHUNK_DURATION_SECONDS`; when duration and size are
positive and the estimated chunk size `bytesPerSecond * 300` exceeds
`MAX_CHUNK_SIZE_BYTES`, use
`Math.max(MIN_CHUNK_DURATION_SECONDS, Math.floor(MAX_CHUNK_SIZE_BYTES / bytesPerSecond))`. -/
def computeChunkDuration (fileSize : ℕ) (duration : ℚ) : ℕ :=
  if 0 < duration ∧ 0 < fileSize then
    let bytesPerSecond : ℚ := (fileSize : ℚ) / duration
    if (MAX_CHUNK_SIZE_BYTES : ℚ) < bytesPerSecond * (TARGET_CHUNK_DURATION_SECONDS : ℚ) then
      max MIN_CHUNK_DURATION_SECONDS (⌊(MAX_CHUNK_SIZE_BYTES : ℚ) / bytesPerSecond⌋).toNat
    else TARGET_CHUNK_DURATION_SECONDS
  else TARGET_CHUNK_DURATION_SECONDS

/-- The MP3 fallback tier of src/transcribe.ts lines 158-177: segment at
`Math.max(MIN_CHUNK_DURATION_SECONDS, Math.floor(chunkDuration * 0.5))`,
return any non-empty chunk list WITHOUT checking sizes, otherwise throw
the terminal error (line 179). -/
def reducedMp3Duration (chunkDuration : ℕ) : ℕ :=
  max MIN_CHUNK_DURATION_SECONDS (chunkDuration / 2)

/-- The MP3 fallback branch body (continued): segment, list the `.mp3`
files, return them when at least one exists, else throw. -/
def mp3Fallback (env : ChunkEnv) (chunkDuration : ℕ) :
    Except ChunkError ChunkOutcome × List ChunkStep :=
  match env.mp3Seg (reducedMp3Duration chunkDuration) with
  | some sizes =>
      if sizes.isEmpty then
        (.error .chunkingFailed, [.mp3Seg (reducedMp3Duration chunkDuration)])
      else (.ok ⟨sizes, "mp3", .mp3Tier⟩, [.mp3Seg (reducedMp3Duration chunkDuration)])
  | none => (.error .chunkingFailed, [.mp3Seg (reducedMp3Duration chunkDuration)])

/-- The WAV segmentation tier of src/transcribe.ts lines 121-154: segment
once at `chunkDuration`; on a non-empty chunk list, return it when every
chunk is within `MAX_CHUNK_SIZE_BYTES`, otherwise delete all chunks of the
attempt and fall through; on a failed command or an empty list fall
through to `mp3Fallback`. -/
def wavTierRun (env : ChunkEnv) (chunkDuration : ℕ) :
    Except ChunkError ChunkOutcome × List ChunkStep :=
  match env.wavSeg chunkDuration with
  | some sizes =>
      if sizes.isEmpty then
        ((mp3Fallback env chunkDuration).1,
          .wavSeg chunkDuration :: (mp3Fallback env chunkDuration).2)
      else if sizes.all (fun s => s ≤ MAX_CHUNK_SIZE_BYTES) then
        (.ok ⟨sizes, "wav", .wavTier⟩, [.wavSeg chunkDuration])
      else
        ((mp3Fallback env chunkDuration).1,
          .wavSeg chunkDuration :: .deleteWav :: (mp3Fallback env chunkDuration).2)
  | none =>
      ((mp3Fallback env chunkDuration).1,
        .wavSeg chunkDuration :: (mp3Fallback env chunkDuration).2)

/-- The whole of `chunkAudioFile` (src/transcribe.ts lines 77-182): abort
check, chunk-duration planning, single-chunk fast path for
`fileSize < MAX_CHUNK_SIZE_BYTES && duration <= TARGET_CHUNK_DURATION_SECONDS`
(returning one chunk when the conversion wrote a non-empty file), then the
WAV tier, then the MP3 tier.  The second component is the trace of
external actions. -/
def chunkAudioFileRun (env : ChunkEnv) :
    Except ChunkError ChunkOutcome × List ChunkStep :=
  if env.aborted then (.error .abortError, [])
  else
    if env.fileSize < MAX_CHUNK_SIZE_BYTES ∧
        env.duration ≤ (TARGET_CHUNK_DURATION_SECONDS : ℚ) then
      match env.singleConv with
      | some n =>
          if 0 < n then (.ok ⟨[n], "wav", .single⟩, [.singleConv])
          else
            ((wavTierRun env (computeChunkDuration env.fileSize env.duration)).1,
              .singleConv ::
                (wavTierRun env (computeChunkDuration env.fileSize env.duration)).2)
      | none =>
          ((wavTierRun env (computeChunkDuration env.fileSize env.duration)).1,
            .singleConv ::
              (wavTierRun env (computeChunkDuration env.fileSize env.duration)).2)
    else wavTierRun env (computeChunkDuration env.fileSize env.duration)

/-- The result of `chunkAudioFile` without its action trace. -/
def chunkAudioFile (env : ChunkEnv) : Except ChunkError ChunkOutcome :=
  (chunkAudioFileRun env).1

/-! ### The bounded-concurrency scheduler `runWithConcurrency`
(src/transcribe.ts lines 184-206)

The event-loop behaviour of the start loop is modelled as a deterministic
function of two oracles:
- `sig i` is the `AbortSignal` state observed by `checkAborted` at the top
  of loop iteration `i` (just before task `i` would be started);
- `oracle` is the adversary deciding which in-flight task `Promise.race`
  settles on whenever the pool is full (`executing.size >= limit`) — it
  receives a step counter and its value is taken modulo the pool size.
`res i` is the value task `i` resolves with (tasks in `transcribeAudio`
never reject: every failure is converted to an empty `ChunkResult`).
The trace records start and completion events in order. -/

/-- A scheduler event: task `i` started, or task `i` settled. -/
inductive PoolEvent where
  | start (i : ℕ)
  | complete (i : ℕ)
deriving DecidableEq, Repr

/-- Errors with which the scheduler promise can reject: the distinct
`AbortError` thrown by `checkAborted` (lines 56-60), versus any other
(generic) failure. -/
inductive SchedError where
  | abortError
  | generic
deriving DecidableEq, Repr

/-- The final `await Promise.all(executing)` (line 204): the remaining
in-flight tasks settle one at a time in an order chosen by the adversary.
`fuel` is the number of remaining tasks. -/
def drainEvents (oracle : ℕ → ℕ) : ℕ → List ℕ → ℕ → List PoolEvent
  | 0, _, _ => []
  | fuel + 1, running, step =>
      match running with
      | [] => []
      | _ :: _ =>
          .complete (running.getD (oracle step % running.length) 0) ::
            drainEvents oracle fuel
              (running.eraseIdx (oracle step % running.length)) (step + 1)

/-- The start loop of `runWithConcurrency` (lines 188-202): for each
pending task index in submission order, `checkAborted` (throwing
`AbortError` if the signal has fired), start the task, and whenever the
pool has reached `limit`, wait for one in-flight task (adversary's choice)
to settle before continuing.  Returns the settlement value of the
function's promise and the event trace. -/
def poolGo {α : Type} (res : ℕ → α) (limit : ℕ) (oracle : ℕ → ℕ)
    (sig : ℕ → Bool) (n : ℕ) :
    List ℕ → List ℕ → ℕ → Except SchedError (List α) × List PoolEvent
  | [], running, step =>
      (.ok ((List.range n).map res), drainEvents oracle running.length running step)
  | i :: rest, running, step =>
      if sig i then (.error .abortError, [])
      else if limit ≤ (running ++ [i]).length then
        ((poolGo res limit oracle sig n rest
            ((running ++ [i]).eraseIdx (oracle step % (running ++ [i]).length))
            (step + 1)).1,
          .start i ::
            .complete ((running ++ [i]).getD (oracle step % (running ++ [i]).length) 0) ::
              (poolGo res limit oracle sig n rest
                ((running ++ [i]).eraseIdx (oracle step % (running ++ [i]).length))
                (step + 1)).2)
      else
        ((poolGo res limit oracle sig n rest (running ++ [i]) (step + 1)).1,
          .start i :: (poolGo res limit oracle sig n rest (running ++ [i]) (step + 1)).2)

/-- `runWithConcurrency(tasks, limit, signal)` for `n` tasks: run the
start loop from an empty pool over the task indices in submission order. -/
def runWithConcurrency {α : Type} (res : ℕ → α) (limit : ℕ) (oracle : ℕ → ℕ)
    (sig : ℕ → Bool) (n : ℕ) : Except SchedError (List α) × List PoolEvent :=
  poolGo res limit oracle sig n (List.range n) [] 0

/-- The indices of the `start` events of a trace, in order. -/
def startsOf : List PoolEvent → List ℕ
  | [] => []
  | .start i :: es => i :: startsOf es
  | .complete _ :: es => startsOf es

/-- Net change of the in-flight count contributed by one event. -/
def inflightDelta : PoolEvent → ℤ
  | .start _ => 1
  | .complete _ => -1

/-- The in-flight count after a trace (starts minus completions). -/
def inflight (es : List PoolEvent) : ℤ :=
  (es.map inflightDelta).sum

/-! ### Per-chunk response handling (src/transcribe.ts lines 286-309)

One remote call either throws (transport failure / any exception) or
returns `{ result, error }`.  The optional chain
`result?.results?.channels?.[0]?.alternatives?.[0]?.transcript` is
modelled as the single optional field `transcript` of the opaque
payload. -/

/-- The remote response payload, reduced to the one field the code reads. -/
structure RawResult where
  transcript : Option String
deriving DecidableEq, Repr

/-- Outcome of one `deepgram.listen.prerecorded.transcribeFile` call:
an exception, or a `{ result, error }` pair (each component nullable). -/
inductive DGOutcome where
  | thrown
  | returned (result : Option RawResult) (error : Option String)
deriving DecidableEq, Repr

/-- The body of one transcription task (src/transcribe.ts lines 286-309):
a thrown exception or a service-reported `error` yields
`{ index, transcription: "", rawData: null }`; otherwise the transcript is
the optional chain with `|| ""`, and `rawData` is the returned `result`
object itself (even when the transcript field is missing). -/
def handleChunkResponse (index : ℕ) (o : DGOutcome) : ChunkResult RawResult :=
  match o with
  | .thrown => ⟨index, "", none⟩
  | .returned result error =>
      match error with
      | some _ => ⟨index, "", none⟩
      | none => ⟨index, (result.bind (fun r => r.transcript)).getD "", result⟩

/-- The `ChunkResult` list produced by mapping the tasks over chunk files
starting at chunk index `i` (src/transcribe.ts lines 278-313): task `j`
carries index `j`. -/
def mkResults : ℕ → List DGOutcome → List (ChunkResult RawResult)
  | _, [] => []
  | i, o :: os => handleChunkResponse i o :: mkResults (i + 1) os

/-- A failed call in the sense of the spec's error taxonomy: a transport
failure (exception) or a service-reported error. -/
def isFailedCall : DGOutcome → Bool
  | .thrown => true
  | .returned _ (some _) => true
  | .returned _ none => false

/-- A call that returned a response object and no error. -/
def isServedCall : DGOutcome → Bool
  | .returned (some _) none => true
  | _ => false

/-- The transcript text contributed by a served call (`|| ""` applied),
`none` for every other outcome. -/
def servedTranscript : DGOutcome → Option String
  | .returned (some r) none => some ((r.transcript).getD "")
  | _ => none

/-! ### Cleanup on every exit path (src/transcribe.ts lines 248-358)

`transcribeAudio` wraps its stages in `try { ... } finally { await
fs.promises.rm(tempDir, {recursive: true, force: true}).catch(log) }`.
The stages' settlement is abstracted as `body : Except ε α` (success,
failure, or cancellation — the `AbortError` is one of the `ε` values);
the removal's own outcome as `rmOk : Bool`.  A counter threads through the
removal call so that "exactly once" is a property of the model rather
than an assumption. -/

/-- JavaScript `try/finally` semantics for an already-settled body: an
exception escaping the finaliser replaces the body's settlement, an
ordinarily completing finaliser leaves it unchanged. -/
def jsTryFinally {ε α : Type} (body : Except ε α) (finaliser : Except ε Unit) :
    Except ε α :=
  match finaliser with
  | .error e => .error e
  | .ok _ => body

/-- One `fs.promises.rm` invocation: its outcome plus the incremented
invocation counter. -/
def rmCall (rmOk : Bool) (calls : ℕ) : Except Unit Unit × ℕ :=
  (if rmOk then .ok () else .error (), calls + 1)

/-- The finaliser of src/transcribe.ts lines 353-358:
`rm(tempDir, ...).catch(e => console.error(...))` — the removal failure is
caught (so the finaliser never throws) and recorded as logged. -/
def cleanupFinaliser (ε : Type) (rmOk : Bool) (calls : ℕ) :
    (Except ε Unit × Bool) × ℕ :=
  let r := rmCall rmOk calls
  match r.1 with
  | .ok _ => ((.ok (), false), r.2)
  | .error _ => ((.ok (), true), r.2)

/-- The exit discipline of `transcribeAudio`: given the settled body and
the removal behaviour, the pipeline's final settlement, whether a removal
failure was logged, and how many times removal was invoked. -/
def transcribeAudioExit {ε α : Type} (body : Except ε α) (rmOk : Bool) :
    (Except ε α × Bool) × ℕ :=
  let f := cleanupFinaliser ε rmOk 0
  ((jsTryFinally body f.1.1, f.1.2), f.2)

/-! ### `validateAudioFile` (src/audioUtils.ts lines 227-275)

`detectAudioFormat` and `getDetailedAudioMetadata` catch internally and
return `null` on any failure, so they are modelled as `Option`-valued
oracles; `fs.promises.stat` may reject, modelled as `Except` with the
stringified exception.  The whole body sits in `try { ... } catch (error)
{ return { isValid: false, error: "Validation failed: " + String(error) } }`. -/

/-- The metadata object of `getDetailedAudioMetadata`, reduced to the
field `validateAudioFile` reads. -/
structure AudioMetadata where
  duration : ℚ
deriving DecidableEq, Repr

/-- Oracle environment for one `validateAudioFile` call. -/
structure ValidateEnv where
  existsOnDisk : Bool
  statResult : Except String ℕ
  detectResult : Option (String × String)
  metadata : Option AudioMetadata
  extname : String

/-- The `{ isValid, format?, error? }` object returned by
`validateAudioFile`. -/
structure ValidationResult where
  isValid : Bool
  format : Option (String × String)
  error : Option String
deriving DecidableEq, Repr

/-- The `try` body of src/audioUtils.ts lines 232-271: existence check,
empty-file check, `file-type` detection, and the ffprobe fallback.  An
uncaught exception is an `Except.error` carrying `String(error)`. -/
def validateAudioFileBody (env : ValidateEnv) : Except String ValidationResult :=
  if !env.existsOnDisk then .ok ⟨false, none, some "File does not exist"⟩
  else
    match env.statResult with
    | .error e => .error e
    | .ok size =>
        if size = 0 then .ok ⟨false, none, some "File is empty"⟩
        else
          match env.detectResult with
          | none =>
              match env.metadata with
              | some m =>
                  if 0 < m.duration then
                    .ok ⟨true,
                      some (if env.extname = "" then "unknown" else env.extname,
                        "audio/unknown"), none⟩
                  else .ok ⟨false, none, some "Unsupported audio format"⟩
              | none => .ok ⟨false, none, some "Unsupported audio format"⟩
          | some fmt =>
              match env.metadata with
              | none => .ok ⟨true, some fmt, none⟩
              | some _ => .ok ⟨true, some fmt, none⟩

/-- `validateAudioFile` (src/audioUtils.ts lines 227-275): the body with
its surrounding `catch`, which converts any exception into an invalid
result with message `"Validation failed: " + String(error)`.  Total by
construction: it always resolves with a `ValidationResult`. -/
def validateAudioFile (env : ValidateEnv) : ValidationResult :=
  match validateAudioFileBody env with
  | .ok r => r
  | .error e => ⟨false, none, some ("Validation failed: " ++ e)⟩

/-! ### Concrete environments used to settle individual claims. -/

/-- A source file at exactly the ceiling size whose WAV segmentation
fails and whose MP3 segmentation yields one chunk of `ceiling + 1`
bytes. -/
def envOversizedMp3 : ChunkEnv :=
  { aborted := false
    fileSize := MAX_CHUNK_SIZE_BYTES
    duration := 0
    singleConv := none
    wavSeg := fun _ => none
    mp3Seg := fun _ => some [MAX_CHUNK_SIZE_BYTES + 1] }

/-- A source file at exactly the ceiling size whose WAV segmentation
succeeds with one small chunk. -/
def envWavSmall : ChunkEnv :=
  { aborted := false
    fileSize := MAX_CHUNK_SIZE_BYTES
    duration := 0
    singleConv := none
    wavSeg := fun _ => some [10]
    mp3Seg := fun _ => none }

/-- A source file at exactly the ceiling size whose WAV segmentation
produces an oversized chunk and whose MP3 segmentation then produces one
small chunk. -/
def envWavOversized : ChunkEnv :=
  { aborted := false
    fileSize := MAX_CHUNK_SIZE_BYTES
    duration := 0
    singleConv := none
    wavSeg := fun _ => some [MAX_CHUNK_SIZE_BYTES + 5]
    mp3Seg := fun _ => some [1000] }

/-- A 250-second source file of exactly the ceiling size: it satisfies
`size ≤ ceiling` and `duration ≤ target`, and its single-chunk conversion
would succeed with non-empty output, yet the fast path requires the STRICT
inequality `size < ceiling`, so segmentation runs and yields two chunks. -/
def envBoundarySize : ChunkEnv :=
  { aborted := false
    fileSize := MAX_CHUNK_SIZE_BYTES
    duration := 250
    singleConv := some 5
    wavSeg := fun _ => some [1000, 1000]
    mp3Seg := fun _ => none }

/-- A small 250-second file whose single-chunk conversion writes 42
bytes. -/
def envSmallFile : ChunkEnv :=
  { aborted := false
    fileSize := 10485760
    duration := 250
    singleConv := some 42
    wavSeg := fun _ => none
    mp3Seg := fun _ => none }

/-- Five remote-call outcomes of which exactly one (the second) is a
transport failure. -/
def outcomesOneOfFiveFails : List DGOutcome :=
  [.returned (some ⟨some "alpha"⟩) none,
   .thrown,
   .returned (some ⟨some "gamma"⟩) none,
   .returned (some ⟨some "delta"⟩) none,
   .returned (some ⟨some "epsilon"⟩) none]

/-- A validation environment for a non-existent file. -/
def envFileMissing : ValidateEnv :=
  ⟨false, .ok 5, none, none, "mp3"⟩

/-- A validation environment for an existing zero-byte file. -/
def envFileEmpty : ValidateEnv :=
  ⟨true, .ok 0, none, none, "mp3"⟩

/-- A validation environment in which `fs.promises.stat` rejects. -/
def envStatThrows : ValidateEnv :=
  ⟨true, .error "boom", none, none, "mp3"⟩

/-! Helper lemmas for the aggregation claims. -/

theorem sortResults_sorted {α : Type} (l : List (ChunkResult α)) :
    List.Sorted (fun a b : ChunkResult α => a.index ≤ b.index) (sortResults l) := by
  haveI : IsTotal (ChunkResult α) (fun a b => a.index ≤ b.index) :=
    ⟨fun a b => Nat.le_total a.index b.index⟩
  haveI : IsTrans (ChunkResult α) (fun a b => a.index ≤ b.index) :=
    ⟨fun a b c hab hbc => Nat.le_trans hab hbc⟩
  exact List.sorted_insertionSort _ l

theorem sortResults_perm {α : Type} (l : List (ChunkResult α)) :
    (sortResults l).Perm l :=
  List.perm_insertionSort _ l

theorem sortResults_congr {α : Type} {l₁ l₂ : List (ChunkResult α)}
    (hperm : l₁.Perm l₂)
    (hnodup : (l₁.map (fun r => r.index)).Nodup) :
    sortResults l₁ = sortResults l₂ := by
  haveI : IsAntisymm (ChunkResult α) (fun a b => a.index < b.index) :=
    ⟨fun a b hab hba => absurd (Nat.lt_trans hab hba) (Nat.lt_irrefl _)⟩
  have hp : (sortResults l₁).Perm (sortResults l₂) :=
    (sortResults_perm l₁).trans (hperm.trans (sortResults_perm l₂).symm)
  have hnd₁ : ((sortResults l₁).map (fun r => r.index)).Nodup :=
    (((sortResults_perm l₁).map (fun r => r.index)).nodup_iff).mpr hnodup
  have hnd₂ : ((sortResults l₂).map (fun r => r.index)).Nodup := by
    have := (hp.map (fun r => r.index)).nodup_iff
    exact this.mp hnd₁
  have hstrict : ∀ (m : List (ChunkResult α)),
      List.Sorted (fun a b : ChunkResult α => a.index ≤ b.index) m →
      (m.map (fun r => r.index)).Nodup →
      List.Sorted (fun a b : ChunkResult α => a.index < b.index) m := by
    intro m hs hnd
    have hne : List.Pairwise (fun a b : ChunkResult α => a.index ≠ b.index) m :=
      List.pairwise_map.mp hnd
    exact (hs.and hne).imp (fun h => Nat.lt_of_le_of_ne h.1 h.2)
  exact List.eq_of_perm_of_sorted hp
    (hstrict _ (sortResults_sorted l₁) hnd₁)
    (hstrict _ (sortResults_sorted l₂) hnd₂)

/-- C1: For every list of chunk results with pairwise-distinct indices, the
aggregation step (sort by index ascending, keep non-empty transcripts, join
with a single space, trim; collect non-null payloads in the same index
order) is invariant under any permutation of the list — i.e. under any
completion order of the concurrent transcription jobs — and the collected
raw-payload list is exactly the list of non-null payloads of the
index-sorted results. -/
theorem aggregation_invariant_under_completion_order {α : Type}
    (l₁ l₂ : List (ChunkResult α)) (hperm : l₁.Perm l₂)
    (hnodup : (l₁.map (fun r => r.index)).Nodup) :
    combinedTranscription l₁ = combinedTranscription l₂ ∧
    collectRawResults l₁ = collectRawResults l₂ ∧
    collectRawResults l₁ = (sortResults l₁).filterMap (fun r => r.rawData) := by
  have hs := sortResults_congr hperm hnodup
  refine ⟨?_, ?_, rfl⟩
  · unfold combinedTranscription
    rw [hs]
  · unfold collectRawResults
    rw [hs]

/-- C1 witness: a concrete two-element permutation with distinct indices. -/
theorem aggregation_invariant_witness :
    ([⟨1, "world", some 7⟩, ⟨0, "hello", none⟩] : List (ChunkResult ℕ)).Perm
      [⟨0, "hello", none⟩, ⟨1, "world", some 7⟩] ∧
    combinedTranscription ([⟨1, "world", some 7⟩, ⟨0, "hello", none⟩] : List (ChunkResult ℕ)) =
      combinedTranscription ([⟨0, "hello", none⟩, ⟨1, "world", some 7⟩] : List (ChunkResult ℕ)) := by
  have hperm : ([⟨1, "world", some 7⟩, ⟨0, "hello", none⟩] : List (ChunkResult ℕ)).Perm
      [⟨0, "hello", none⟩, ⟨1, "world", some 7⟩] := by decide
  have hnodup : (([⟨1, "world", some 7⟩, ⟨0, "hello", none⟩] : List (ChunkResult ℕ)).map
      (fun r => r.index)).Nodup := by decide
  exact ⟨hperm, (aggregation_invariant_under_completion_order _ _ hperm hnodup).1⟩

/-! Helper lemmas for the segmenter claims. -/

theorem mp3Fallback_trace (env : ChunkEnv) (d : ℕ) :
    (mp3Fallback env d).2 = [.mp3Seg (reducedMp3Duration d)] := by
  unfold mp3Fallback
  cases env.mp3Seg (reducedMp3Duration d) with
  | none => rfl
  | some sizes => cases sizes with
    | nil => rfl
    | cons a l => rfl

theorem mp3Fallback_ok_tier (env : ChunkEnv) (d : ℕ) (o : ChunkOutcome)
    (h : (mp3Fallback env d).1 = .ok o) : o.tier = .mp3Tier := by
  unfold mp3Fallback at h
  cases hm : env.mp3Seg (reducedMp3Duration d) with
  | none => rw [hm] at h; exact absurd h (by simp)
  | some sizes =>
      rw [hm] at h
      cases sizes with
      | nil => exact absurd h (by simp)
      | cons a l =>
          simp only [List.isEmpty_cons, Bool.false_eq_true, if_false,
            Except.ok.injEq] at h
          rw [← h]

theorem wavTierRun_ok_sizes (env : ChunkEnv) (d : ℕ) (o : ChunkOutcome)
    (h : (wavTierRun env d).1 = .ok o) (ht : o.tier = .wavTier) :
    ∀ c ∈ o.chunks, c ≤ MAX_CHUNK_SIZE_BYTES := by
  unfold wavTierRun at h
  cases hw : env.wavSeg d with
  | none =>
      rw [hw] at h
      have hm := mp3Fallback_ok_tier env d o h
      rw [hm] at ht
      exact absurd ht (by decide)
  | some sizes =>
      rw [hw] at h
      cases sizes with
      | nil =>
          have hm := mp3Fallback_ok_tier env d o h
          rw [hm] at ht
          exact absurd ht (by decide)
      | cons a l =>
          simp only [List.isEmpty_cons, Bool.false_eq_true, if_false] at h
          by_cases ha : (a :: l).all (fun s => s ≤ MAX_CHUNK_SIZE_BYTES)
          · rw [if_pos ha] at h
            simp only [Except.ok.injEq] at h
            rw [← h]
            intro c hc
            have := List.all_eq_true.mp ha c hc
            exact of_decide_eq_true this
          · rw [if_neg ha] at h
            have hm := mp3Fallback_ok_tier env d o h
            rw [hm] at ht
            exact absurd ht (by decide)

/-- C2 amended: chunk lists returned by the WAV segmentation tier contain
no chunk above `MAX_CHUNK_SIZE_BYTES`; the single-chunk fast path and the
MP3 fallback tier perform no size verification (see the counterexample),
so the guarantee holds only for the WAV tier. -/
theorem wavTier_chunks_within_ceiling (env : ChunkEnv) (o : ChunkOutcome)
    (hok : chunkAudioFile env = .ok o) (ht : o.tier = .wavTier) :
    ∀ c ∈ o.chunks, c ≤ MAX_CHUNK_SIZE_BYTES := by
  unfold chunkAudioFile chunkAudioFileRun at hok
  by_cases hab : env.aborted
  · simp [hab] at hok
  · simp only [hab, if_false, Bool.false_eq_true] at hok
    by_cases hfast : env.fileSize < MAX_CHUNK_SIZE_BYTES ∧
        env.duration ≤ (TARGET_CHUNK_DURATION_SECONDS : ℚ)
    · rw [if_pos hfast] at hok
      cases hc : env.singleConv with
      | none =>
          rw [hc] at hok
          dsimp only at hok
          exact wavTierRun_ok_sizes env _ o hok ht
      | some n =>
          rw [hc] at hok
          dsimp only at hok
          by_cases hn : 0 < n
          · rw [if_pos hn] at hok
            simp only [Except.ok.injEq] at hok
            rw [← hok] at ht
            simp at ht
          · rw [if_neg hn] at hok
            exact wavTierRun_ok_sizes env _ o hok ht
    · rw [if_neg hfast] at hok
      exact wavTierRun_ok_sizes env _ o hok ht

/-- C2 counterexample: for `envOversizedMp3` the segmenter does not fail
but returns, through the MP3 fallback tier, a chunk list containing a
chunk strictly larger than the ceiling. -/
theorem chunk_ceiling_counterexample :
    chunkAudioFile envOversizedMp3 =
      .ok ⟨[MAX_CHUNK_SIZE_BYTES + 1], "mp3", .mp3Tier⟩ ∧
    MAX_CHUNK_SIZE_BYTES < MAX_CHUNK_SIZE_BYTES + 1 := by
  constructor
  · rfl
  · exact Nat.lt_succ_self _

/-- C2 witness: a run that returns through the WAV tier, whose single
10-byte chunk the amended theorem bounds by the ceiling. -/
theorem wavTier_chunks_within_ceiling_witness :
    chunkAudioFile envWavSmall = .ok ⟨[10], "wav", .wavTier⟩ ∧
    (10 : ℕ) ≤ MAX_CHUNK_SIZE_BYTES :=
  ⟨rfl, wavTier_chunks_within_ceiling envWavSmall ⟨[10], "wav", .wavTier⟩ rfl rfl
    10 (by simp)⟩

/-- C3 amended: when the single WAV segmentation attempt produces any
oversized chunk, all chunks of that attempt are deleted and the segmenter
falls back IMMEDIATELY to the MP3 tier at duration
`max MIN_CHUNK_DURATION_SECONDS (planned / 2)`; the lossless tier is
attempted exactly once per call — there is no within-tier retry loop. -/
theorem wav_oversize_immediate_mp3_fallback (env : ChunkEnv) (sizes : List ℕ)
    (hab : env.aborted = false)
    (hbig : MAX_CHUNK_SIZE_BYTES ≤ env.fileSize)
    (hw : env.wavSeg (computeChunkDuration env.fileSize env.duration) = some sizes)
    (hne : sizes.isEmpty = false)
    (hover : sizes.all (fun s => s ≤ MAX_CHUNK_SIZE_BYTES) = false) :
    chunkAudioFileRun env =
      ((mp3Fallback env (computeChunkDuration env.fileSize env.duration)).1,
        .wavSeg (computeChunkDuration env.fileSize env.duration) :: .deleteWav ::
          [.mp3Seg (reducedMp3Duration
            (computeChunkDuration env.fileSize env.duration))]) ∧
    (chunkAudioFileRun env).2.countP
      (fun s => match s with | .wavSeg _ => true | _ => false) = 1 := by
  have hfast : ¬(env.fileSize < MAX_CHUNK_SIZE_BYTES ∧
      env.duration ≤ (TARGET_CHUNK_DURATION_SECONDS : ℚ)) := by
    intro h
    exact absurd h.1 (Nat.not_lt.mpr hbig)
  have hmain : chunkAudioFileRun env =
      ((mp3Fallback env (computeChunkDuration env.fileSize env.duration)).1,
        .wavSeg (computeChunkDuration env.fileSize env.duration) :: .deleteWav ::
          [.mp3Seg (reducedMp3Duration
            (computeChunkDuration env.fileSize env.duration))]) := by
    unfold chunkAudioFileRun
    rw [hab]
    simp only [Bool.false_eq_true, if_false]
    rw [if_neg hfast]
    unfold wavTierRun
    rw [hw]
    dsimp only
    rw [if_neg (by simp [hne]), if_neg (by simp [hover]), mp3Fallback_trace]
  refine ⟨hmain, ?_⟩
  rw [hmain]
  rfl

/-- C3 counterexample: for `envWavOversized` the single WAV attempt
produces an oversized chunk, after which the chunks are deleted and the
segmenter moves directly to the MP3 tier — the trace contains exactly one
WAV segmentation invocation, so no within-tier retry with a shrunk
duration ever happens, and the fallback duration is `300 / 2 = 150`
(a 0.5 factor), not a 0.7 shrink within the tier. -/
theorem segmentation_no_wav_retry_counterexample :
    chunkAudioFileRun envWavOversized =
      (.ok ⟨[1000], "mp3", .mp3Tier⟩,
        [.wavSeg 300, .deleteWav, .mp3Seg 150]) ∧
    MAX_CHUNK_SIZE_BYTES < MAX_CHUNK_SIZE_BYTES + 5 ∧
    (chunkAudioFileRun envWavOversized).2.countP
      (fun s => match s with | .wavSeg _ => true | _ => false) = 1 := by
  refine ⟨rfl, Nat.lt_add_of_pos_right (by decide), ?_⟩
  rfl

/-- C3 witness: the amended theorem applied to `envWavOversized`. -/
theorem wav_oversize_immediate_mp3_fallback_witness :
    chunkAudioFileRun envWavOversized =
      ((mp3Fallback envWavOversized
          (computeChunkDuration envWavOversized.fileSize envWavOversized.duration)).1,
        .wavSeg (computeChunkDuration envWavOversized.fileSize envWavOversized.duration) ::
          .deleteWav ::
          [.mp3Seg (reducedMp3Duration
            (computeChunkDuration envWavOversized.fileSize envWavOversized.duration))]) :=
  (wav_oversize_immediate_mp3_fallback envWavOversized [MAX_CHUNK_SIZE_BYTES + 5]
    rfl (Nat.le_refl _) rfl rfl (by decide)).1

/-- C5: when duration and size are known and positive and the estimated
chunk size at the default target duration exceeds the ceiling, the planned
chunk duration equals
`min(default target, floor(ceiling × 8 / effective bitrate))` clamped to
the minimum, with `effective bitrate = size × 8 / duration`; with unknown
(zero) duration the planned duration is the default target unmodified. -/
theorem plannedChunkDuration_matches_spec (S : ℕ) (d : ℚ)
    (hS : 0 < S) (hd : 0 < d)
    (hover : (MAX_CHUNK_SIZE_BYTES : ℚ) <
      ((S : ℚ) / d) * (TARGET_CHUNK_DURATION_SECONDS : ℚ)) :
    computeChunkDuration S d =
      max MIN_CHUNK_DURATION_SECONDS
        (min TARGET_CHUNK_DURATION_SECONDS
          (⌊((MAX_CHUNK_SIZE_BYTES : ℚ) * 8) / (((S : ℚ) * 8) / d)⌋).toNat) ∧
    computeChunkDuration S 0 = TARGET_CHUNK_DURATION_SECONDS := by
  constructor
  · have hSQ : (0 : ℚ) < (S : ℚ) := by exact_mod_cast hS
    have hbps : (0 : ℚ) < (S : ℚ) / d := div_pos hSQ hd
    have hfloor_eq : ((MAX_CHUNK_SIZE_BYTES : ℚ) * 8) / (((S : ℚ) * 8) / d) =
        (MAX_CHUNK_SIZE_BYTES : ℚ) / ((S : ℚ) / d) := by
      rw [div_div_eq_mul_div, div_div_eq_mul_div]
      ring
    have hlt : (MAX_CHUNK_SIZE_BYTES : ℚ) / ((S : ℚ) / d) <
        (TARGET_CHUNK_DURATION_SECONDS : ℚ) := by
      rw [div_lt_iff₀ hbps]
      calc (MAX_CHUNK_SIZE_BYTES : ℚ)
          < ((S : ℚ) / d) * (TARGET_CHUNK_DURATION_SECONDS : ℚ) := hover
        _ = (TARGET_CHUNK_DURATION_SECONDS : ℚ) * ((S : ℚ) / d) := by ring
    have hfl : ⌊(MAX_CHUNK_SIZE_BYTES : ℚ) / ((S : ℚ) / d)⌋ <
        (TARGET_CHUNK_DURATION_SECONDS : ℤ) := by
      apply Int.floor_lt.mpr
      exact_mod_cast hlt
    have htn : (⌊(MAX_CHUNK_SIZE_BYTES : ℚ) / ((S : ℚ) / d)⌋).toNat ≤
        TARGET_CHUNK_DURATION_SECONDS := by
      rw [Int.toNat_le]
      exact Int.le_of_lt hfl
    unfold computeChunkDuration
    rw [if_pos ⟨hd, hS⟩, if_pos hover, hfloor_eq, min_eq_right htn]
  · unfold computeChunkDuration
    rw [if_neg]
    intro h
    exact absurd h.1 (lt_irrefl 0)

/-- C5 witness: a 500 MiB, 600-second file (effective bitrate ≈ 6.99 Mbps)
whose estimated 300-second chunk would be 250 MiB. -/
theorem plannedChunkDuration_witness :
    (0 : ℚ) < 600 ∧ (0 : ℕ) < 524288000 ∧
    computeChunkDuration 524288000 600 =
      max MIN_CHUNK_DURATION_SECONDS
        (min TARGET_CHUNK_DURATION_SECONDS
          (⌊((MAX_CHUNK_SIZE_BYTES : ℚ) * 8) / (((524288000 : ℕ) : ℚ) * 8 / 600)⌋).toNat) :=
  ⟨by norm_num, by norm_num,
    (plannedChunkDuration_matches_spec 524288000 600 (by norm_num) (by norm_num)
      (by norm_num [MAX_CHUNK_SIZE_BYTES, TARGET_CHUNK_DURATION_SECONDS])).1⟩

/-- C6 amended: for every run with size STRICTLY below the ceiling and
duration at most the default target whose single conversion succeeds with
non-empty output, the segmenter returns exactly one chunk. -/
theorem small_file_single_chunk (env : ChunkEnv) (n : ℕ)
    (hab : env.aborted = false)
    (hsize : env.fileSize < MAX_CHUNK_SIZE_BYTES)
    (hdur : env.duration ≤ (TARGET_CHUNK_DURATION_SECONDS : ℚ))
    (hconv : env.singleConv = some n) (hn : 0 < n) :
    chunkAudioFile env = .ok ⟨[n], "wav", .single⟩ ∧
    ([n] : List ℕ).length = 1 := by
  refine ⟨?_, rfl⟩
  unfold chunkAudioFile chunkAudioFileRun
  rw [hab]
  simp only [Bool.false_eq_true, if_false]
  rw [if_pos ⟨hsize, hdur⟩, hconv]
  simp [hn]

/-- C6 counterexample: `envBoundarySize` has size S = C (so S ≤ C),
duration 250 ≤ 300, and a single conversion that would succeed with
non-empty output, yet the fast path requires `S < C` strictly, so the
segmenter runs the WAV tier and returns TWO chunks, refuting
`chunks.length == 1` under the claim's `S ≤ C` hypothesis. -/
theorem small_file_single_chunk_counterexample :
    envBoundarySize.fileSize ≤ MAX_CHUNK_SIZE_BYTES ∧
    envBoundarySize.duration ≤ (TARGET_CHUNK_DURATION_SECONDS : ℚ) ∧
    envBoundarySize.singleConv = some 5 ∧ (0 : ℕ) < 5 ∧
    chunkAudioFile envBoundarySize = .ok ⟨[1000, 1000], "wav", .wavTier⟩ ∧
    (ChunkOutcome.mk [1000, 1000] "wav" .wavTier).chunks.length = 2 := by
  refine ⟨Nat.le_refl _, by decide, rfl, by decide, rfl, rfl⟩

/-- C6 witness: the amended theorem applied to the small 250-second
file. -/
theorem small_file_single_chunk_witness :
    chunkAudioFile envSmallFile = .ok ⟨[42], "wav", .single⟩ ∧
    ([42] : List ℕ).length = 1 :=
  small_file_single_chunk envSmallFile 42 rfl (by decide) (by decide) rfl
    (by decide)

/-! Helper lemmas for the scheduler claims. -/

theorem inflight_nil : inflight [] = 0 := rfl

theorem inflight_cons (e : PoolEvent) (es : List PoolEvent) :
    inflight (e :: es) = inflightDelta e + inflight es := by
  simp [inflight]

theorem drainEvents_prefix_nonpos (oracle : ℕ → ℕ) :
    ∀ (fuel : ℕ) (running : List ℕ) (step p : ℕ),
      inflight ((drainEvents oracle fuel running step).take p) ≤ 0 := by
  intro fuel
  induction fuel with
  | zero =>
      intro running step p
      simp [drainEvents, inflight]
  | succ fuel ih =>
      intro running step p
      cases running with
      | nil => simp [drainEvents, inflight]
      | cons a l =>
          cases p with
          | zero => simp [inflight]
          | succ q =>
              rw [drainEvents]
              rw [List.take_succ_cons, inflight_cons]
              have := ih ((a :: l).eraseIdx (oracle step % (a :: l).length)) (step + 1) q
              simp only [inflightDelta]
              omega

theorem startsOf_drainEvents (oracle : ℕ → ℕ) :
    ∀ (fuel : ℕ) (running : List ℕ) (step : ℕ),
      startsOf (drainEvents oracle fuel running step) = [] := by
  intro fuel
  induction fuel with
  | zero => intro running step; rfl
  | succ fuel ih =>
      intro running step
      cases running with
      | nil => rfl
      | cons a l =>
          rw [drainEvents]
          rw [startsOf]
          exact ih _ _

theorem poolGo_prefix_bound {α : Type} (res : ℕ → α) (limit : ℕ) (oracle : ℕ → ℕ)
    (sig : ℕ → Bool) (n : ℕ) :
    ∀ (pending running : List ℕ) (step p : ℕ),
      running.length < limit →
      inflight (((poolGo res limit oracle sig n pending running step).2).take p) +
        (running.length : ℤ) ≤ (limit : ℤ) := by
  intro pending
  induction pending with
  | nil =>
      intro running step p hrun
      rw [poolGo]
      dsimp only
      have := drainEvents_prefix_nonpos oracle running.length running step p
      omega
  | cons i rest ih =>
      intro running step p hrun
      rw [poolGo]
      by_cases hsig : sig i
      · simp only [hsig, if_true]
        cases p <;> simp [inflight] <;> omega
      · simp only [hsig, Bool.false_eq_true, if_false]
        by_cases hfull : limit ≤ (running ++ [i]).length
        · simp only [hfull, if_true]
          have hpos : oracle step % (running ++ [i]).length < (running ++ [i]).length := by
            apply Nat.mod_lt
            simp
          have herase : ((running ++ [i]).eraseIdx
              (oracle step % (running ++ [i]).length)).length = running.length := by
            rw [List.length_eraseIdx, if_pos hpos]
            simp
          have hlen : (running ++ [i]).length = running.length + 1 := by simp
          match p with
          | 0 => simp [inflight]; omega
          | 1 =>
              simp [inflight, inflightDelta]
              omega
          | (q + 2) =>
              rw [List.take_succ_cons, List.take_succ_cons, inflight_cons, inflight_cons]
              have := ih ((running ++ [i]).eraseIdx (oracle step % (running ++ [i]).length))
                (step + 1) q (by rw [herase]; exact hrun)
              rw [herase] at this
              simp only [inflightDelta]
              omega
        · simp only [hfull, if_false]
          have hlen : (running ++ [i]).length = running.length + 1 := by simp
          have hlt : (running ++ [i]).length < limit := by omega
          match p with
          | 0 => simp [inflight]; omega
          | (q + 1) =>
              rw [List.take_succ_cons, inflight_cons]
              have := ih (running ++ [i]) (step + 1) q hlt
              rw [hlen] at this
              simp only [inflightDelta]
              omega

theorem startsOf_poolGo {α : Type} (res : ℕ → α) (limit : ℕ) (oracle : ℕ → ℕ)
    (sig : ℕ → Bool) (n : ℕ) :
    ∀ (pending running : List ℕ) (step : ℕ),
      (∀ i ∈ pending, sig i = false) →
      startsOf (poolGo res limit oracle sig n pending running step).2 = pending := by
  intro pending
  induction pending with
  | nil =>
      intro running step _
      rw [poolGo]
      exact startsOf_drainEvents oracle _ _ _
  | cons i rest ih =>
      intro running step hsig
      rw [poolGo]
      have hi : sig i = false := hsig i (List.mem_cons_self i rest)
      simp only [hi, Bool.false_eq_true, if_false]
      by_cases hfull : limit ≤ (running ++ [i]).length
      · simp only [hfull, if_true]
        rw [startsOf, startsOf]
        rw [ih _ _ (fun j hj => hsig j (List.mem_cons_of_mem i hj))]
      · simp only [hfull, if_false]
        rw [startsOf]
        rw [ih _ _ (fun j hj => hsig j (List.mem_cons_of_mem i hj))]

theorem poolGo_abort {α : Type} (res : ℕ → α) (limit : ℕ) (oracle : ℕ → ℕ)
    (k n : ℕ) :
    ∀ (m i : ℕ) (running : List ℕ) (step : ℕ),
      i ≤ k → k < i + m →
      (poolGo res limit oracle (fun j => decide (k ≤ j)) n
          (List.range' i m) running step).1 = .error .abortError ∧
      startsOf (poolGo res limit oracle (fun j => decide (k ≤ j)) n
          (List.range' i m) running step).2 = List.range' i (k - i) := by
  intro m
  induction m with
  | zero =>
      intro i running step hik hki
      omega
  | succ m ih =>
      intro i running step hik hki
      have hr : List.range' i (m + 1) = i :: List.range' (i + 1) m := rfl
      rw [hr, poolGo]
      by_cases hk : k ≤ i
      · have hik2 : i = k := Nat.le_antisymm hik hk
        rw [if_pos (decide_eq_true hk)]
        subst hik2
        simp [startsOf]
      · have hlt : i < k := Nat.lt_of_not_le hk
        have hsig : (decide (k ≤ i)) = false := decide_eq_false hk
        simp only [hsig, Bool.false_eq_true, if_false]
        have hrec := ih (i + 1)
        by_cases hfull : limit ≤ (running ++ [i]).length
        · simp only [hfull, if_true]
          have h2 := hrec ((running ++ [i]).eraseIdx
            (oracle step % (running ++ [i]).length)) (step + 1)
            (by omega) (by omega)
          refine ⟨h2.1, ?_⟩
          rw [startsOf, startsOf, h2.2]
          have hki2 : k - i = (k - (i + 1)) + 1 := by omega
          rw [hki2]
          rfl
        · simp only [hfull, if_false]
          have h2 := hrec (running ++ [i]) (step + 1) (by omega) (by omega)
          refine ⟨h2.1, ?_⟩
          rw [startsOf, h2.2]
          have hki2 : k - i = (k - (i + 1)) + 1 := by omega
          rw [hki2]
          rfl

/-- C4: if the cancellation token has fired before job `k` of `n` would be
started, the scheduler starts exactly jobs `0..k-1` and no further job,
its result promise rejects with the distinct `AbortError` (never the
generic failure), and the rejection value does not depend on the task
results — the in-flight calls' eventual values are discarded. -/
theorem cancellation_stops_scheduler {α : Type} (res resAlt : ℕ → α)
    (limit : ℕ) (oracle : ℕ → ℕ) (n k : ℕ) (hk : k < n) :
    (runWithConcurrency res limit oracle (fun j => decide (k ≤ j)) n).1 =
      .error .abortError ∧
    startsOf (runWithConcurrency res limit oracle (fun j => decide (k ≤ j)) n).2 =
      List.range k ∧
    (runWithConcurrency res limit oracle (fun j => decide (k ≤ j)) n).1 =
      (runWithConcurrency resAlt limit oracle (fun j => decide (k ≤ j)) n).1 := by
  have h1 := poolGo_abort res limit oracle k n n 0 [] 0 (Nat.zero_le k) (by omega)
  have h2 := poolGo_abort resAlt limit oracle k n n 0 [] 0 (Nat.zero_le k) (by omega)
  unfold runWithConcurrency
  rw [List.range_eq_range']
  refine ⟨h1.1, ?_, ?_⟩
  · rw [h1.2]
    rw [List.range_eq_range']
    simp
  · rw [h1.1, h2.1]

/-- C4 witness: three tasks, the signal fires before job 1 starts. -/
theorem cancellation_stops_scheduler_witness :
    (runWithConcurrency (fun j => j) MAX_CONCURRENT_TRANSCRIPTIONS (fun _ => 0)
        (fun j => decide (1 ≤ j)) 3).1 = .error .abortError ∧
    startsOf (runWithConcurrency (fun j => j) MAX_CONCURRENT_TRANSCRIPTIONS (fun _ => 0)
        (fun j => decide (1 ≤ j)) 3).2 = List.range 1 :=
  ⟨(cancellation_stops_scheduler (fun j => j) (fun j => j + 1)
      MAX_CONCURRENT_TRANSCRIPTIONS (fun _ => 0) 3 1 (by decide)).1,
    (cancellation_stops_scheduler (fun j => j) (fun j => j + 1)
      MAX_CONCURRENT_TRANSCRIPTIONS (fun _ => 0) 3 1 (by decide)).2.1⟩

/-- C9: with a positive concurrency limit and a signal that never fires,
the scheduler's trace starts the jobs exactly in submission-index order
`0, 1, …, n-1` (regardless of the completion order chosen by the
adversary), and at every point of the trace the number of in-flight jobs
(starts minus completions) never exceeds the limit. -/
theorem scheduler_bounded_concurrency_and_order {α : Type} (res : ℕ → α)
    (limit n : ℕ) (oracle : ℕ → ℕ) (hl : 0 < limit) :
    startsOf (runWithConcurrency res limit oracle (fun _ => false) n).2 =
      List.range n ∧
    ∀ p, inflight (((runWithConcurrency res limit oracle (fun _ => false) n).2).take p) ≤
      (limit : ℤ) := by
  constructor
  · unfold runWithConcurrency
    exact startsOf_poolGo res limit oracle (fun _ => false) n (List.range n) [] 0
      (fun _ _ => rfl)
  · intro p
    unfold runWithConcurrency
    have := poolGo_prefix_bound res limit oracle (fun _ => false) n (List.range n) [] 0 p
      (by simpa using hl)
    simpa using this

/-- C9 witness: five jobs at the configured limit of three with an
adversarial completion order; the trace prefix of length four is within
the bound. -/
theorem scheduler_bounded_concurrency_witness :
    0 < MAX_CONCURRENT_TRANSCRIPTIONS ∧
    startsOf (runWithConcurrency (fun j => j) MAX_CONCURRENT_TRANSCRIPTIONS
        (fun s => s + 1) (fun _ => false) 5).2 = List.range 5 ∧
    inflight ((runWithConcurrency (fun j => j) MAX_CONCURRENT_TRANSCRIPTIONS
        (fun s => s + 1) (fun _ => false) 5).2.take 4) ≤
      (MAX_CONCURRENT_TRANSCRIPTIONS : ℤ) :=
  ⟨by decide,
    (scheduler_bounded_concurrency_and_order (fun j => j)
      MAX_CONCURRENT_TRANSCRIPTIONS 5 (fun s => s + 1) (by decide)).1,
    (scheduler_bounded_concurrency_and_order (fun j => j)
      MAX_CONCURRENT_TRANSCRIPTIONS 5 (fun s => s + 1) (by decide)).2 4⟩

/-! Helper lemmas for the per-chunk response handling claim. -/

theorem handleChunkResponse_index (i : ℕ) (o : DGOutcome) :
    (handleChunkResponse i o).index = i := by
  cases o with
  | thrown => rfl
  | returned r e => cases e <;> rfl

theorem handleChunkResponse_failed (i : ℕ) (o : DGOutcome)
    (h : isFailedCall o = true) :
    (handleChunkResponse i o).transcription = "" ∧
    (handleChunkResponse i o).rawData = none := by
  cases o with
  | thrown => exact ⟨rfl, rfl⟩
  | returned r e =>
      cases e with
      | none => exact absurd h (by simp [isFailedCall])
      | some s => exact ⟨rfl, rfl⟩

theorem mkResults_index_ge :
    ∀ (os : List DGOutcome) (i : ℕ) (x : ChunkResult RawResult),
      x ∈ mkResults i os → i ≤ x.index := by
  intro os
  induction os with
  | nil => intro i x hx; simp [mkResults] at hx
  | cons o os ih =>
      intro i x hx
      rw [mkResults] at hx
      rcases List.mem_cons.mp hx with h | h
      · rw [h, handleChunkResponse_index]
      · exact Nat.le_of_succ_le (ih (i + 1) x h)

theorem mkResults_sorted :
    ∀ (os : List DGOutcome) (i : ℕ),
      List.Sorted (fun a b : ChunkResult RawResult => a.index ≤ b.index)
        (mkResults i os) := by
  intro os
  induction os with
  | nil => intro i; simp [mkResults]
  | cons o os ih =>
      intro i
      rw [mkResults]
      rw [List.sorted_cons]
      refine ⟨?_, ih (i + 1)⟩
      intro b hb
      rw [handleChunkResponse_index]
      exact Nat.le_of_succ_le (mkResults_index_ge os (i + 1) b hb)

theorem sortResults_mkResults (os : List DGOutcome) (i : ℕ) :
    sortResults (mkResults i os) = mkResults i os :=
  List.Sorted.insertionSort_eq (mkResults_sorted os i)

theorem mkResults_rawData_length :
    ∀ (os : List DGOutcome) (i : ℕ),
      (∀ o ∈ os, isFailedCall o = true ∨ isServedCall o = true) →
      ((mkResults i os).filterMap (fun r => r.rawData)).length =
        os.length - os.countP isFailedCall := by
  intro os
  induction os with
  | nil => intro i _; rfl
  | cons o os ih =>
      intro i h
      have hos : ∀ o ∈ os, isFailedCall o = true ∨ isServedCall o = true :=
        fun o ho => h o (List.mem_cons_of_mem _ ho)
      have hcount : os.countP isFailedCall ≤ os.length := List.countP_le_length _
      rcases h o (List.mem_cons_self o os) with hf | hs
      · have hr := (handleChunkResponse_failed i o hf).2
        rw [mkResults, List.filterMap_cons, hr]
        rw [ih (i + 1) hos]
        rw [List.countP_cons]
        simp only [hf, if_true, List.length_cons]
        omega
      · cases o with
        | thrown => exact absurd hs (by simp [isServedCall])
        | returned r e =>
            cases e with
            | some s => exact absurd hs (by simp [isServedCall])
            | none =>
                cases r with
                | none => exact absurd hs (by simp [isServedCall])
                | some payload =>
                    rw [mkResults, List.filterMap_cons]
                    have hrd : (handleChunkResponse i
                        (.returned (some payload) none)).rawData = some payload := rfl
                    rw [hrd]
                    rw [List.length_cons, ih (i + 1) hos]
                    rw [List.countP_cons]
                    have hfo : isFailedCall (DGOutcome.returned (some payload) none) = false := rfl
                    simp only [hfo, Bool.false_eq_true, if_false, List.length_cons]
                    omega

theorem mkResults_transcripts :
    ∀ (os : List DGOutcome) (i : ℕ),
      (∀ o ∈ os, isFailedCall o = true ∨ isServedCall o = true) →
      ((mkResults i os).map (fun r => r.transcription)).filter
          (fun t => 0 < t.length) =
        (os.filterMap servedTranscript).filter (fun t => 0 < t.length) := by
  intro os
  induction os with
  | nil => intro i _; rfl
  | cons o os ih =>
      intro i h
      have hos : ∀ o ∈ os, isFailedCall o = true ∨ isServedCall o = true :=
        fun o ho => h o (List.mem_cons_of_mem _ ho)
      rcases h o (List.mem_cons_self o os) with hf | hs
      · have ht := (handleChunkResponse_failed i o hf).1
        have hst : servedTranscript o = none := by
          cases o with
          | thrown => rfl
          | returned r e =>
              cases e with
              | none => exact absurd hf (by simp [isFailedCall])
              | some s => cases r <;> rfl
        rw [mkResults, List.map_cons, ht, List.filterMap_cons, hst]
        rw [List.filter_cons]
        simp only [String.length, decide_eq_true_eq]
        rw [if_neg (by simp)]
        exact ih (i + 1) hos
      · cases o with
        | thrown => exact absurd hs (by simp [isServedCall])
        | returned r e =>
            cases e with
            | some s => exact absurd hs (by simp [isServedCall])
            | none =>
                cases r with
                | none => exact absurd hs (by simp [isServedCall])
                | some payload =>
                    rw [mkResults, List.map_cons, List.filterMap_cons]
                    have ht : (handleChunkResponse i
                        (.returned (some payload) none)).transcription =
                      (payload.transcript).getD "" := rfl
                    have hst : servedTranscript (.returned (some payload) none) =
                      some ((payload.transcript).getD "") := rfl
                    rw [ht, hst, List.filter_cons, List.filter_cons]
                    rw [ih (i + 1) hos]

/-- C7 amended: a thrown transport failure or a service-reported error
yields an empty-string `ChunkResult` with a null raw payload; a response
object WITHOUT an error keeps that object as the raw payload even when its
transcript field is missing (malformed) — only the transcript string falls
back to `""`.  Consequently, when `k` of `n` chunks fail via transport
failure or service error and the rest return response objects, the
raw-payload list has length `n - k` and the aggregate transcript is the
index-ordered space-join of the successful chunks' non-empty transcripts,
with no placeholder text at the failed positions. -/
theorem per_chunk_failures_degrade_not_abort (outcomes : List DGOutcome)
    (hforms : ∀ o ∈ outcomes, isFailedCall o = true ∨ isServedCall o = true) :
    (∀ i, handleChunkResponse i .thrown = ⟨i, "", none⟩) ∧
    (∀ i r e, handleChunkResponse i (.returned r (some e)) = ⟨i, "", none⟩) ∧
    (∀ i r, handleChunkResponse i (.returned (some r) none) =
      ⟨i, (r.transcript).getD "", some r⟩) ∧
    (collectRawResults (mkResults 0 outcomes)).length =
      outcomes.length - outcomes.countP isFailedCall ∧
    combinedTranscription (mkResults 0 outcomes) =
      (String.intercalate " "
        ((outcomes.filterMap servedTranscript).filter (fun t => 0 < t.length))).trim := by
  refine ⟨fun i => rfl, fun i r e => rfl, fun i r => rfl, ?_, ?_⟩
  · unfold collectRawResults
    rw [sortResults_mkResults]
    exact mkResults_rawData_length outcomes 0 hforms
  · unfold combinedTranscription
    rw [sortResults_mkResults]
    rw [mkResults_transcripts outcomes 0 hforms]

/-- C7 counterexample: a malformed response — a response object present,
no error, but no transcript field — yields an empty transcript yet a
NON-null raw payload (the object itself), refuting the claim that a
malformed response yields a null raw payload. -/
theorem malformed_response_keeps_payload_counterexample :
    handleChunkResponse 0 (.returned (some ⟨none⟩) none) = ⟨0, "", some ⟨none⟩⟩ ∧
    (handleChunkResponse 0 (.returned (some ⟨none⟩) none)).rawData ≠ none :=
  ⟨rfl, by decide⟩

/-- C7 witness: five chunks of which exactly one fails (a thrown transport
failure): the raw-payload list has length `5 - 1 = 4`. -/
theorem per_chunk_failures_witness :
    (collectRawResults (mkResults 0 outcomesOneOfFiveFails)).length =
      outcomesOneOfFiveFails.length - outcomesOneOfFiveFails.countP isFailedCall ∧
    outcomesOneOfFiveFails.length = 5 ∧
    outcomesOneOfFiveFails.countP isFailedCall = 1 :=
  ⟨(per_chunk_failures_degrade_not_abort outcomesOneOfFiveFails (by decide)).2.2.2.1,
    by decide, by decide⟩

/-- C8: on every settlement of the pipeline body — success, failure, or
cancellation (any `body : Except ε α`) — the temporary-directory removal
runs exactly once, the pipeline's settlement equals the body's settlement
(a removal failure is never escalated), and a removal failure is exactly
what gets logged. -/
theorem temp_dir_removed_exactly_once {ε α : Type} (body : Except ε α)
    (rmOk : Bool) :
    (transcribeAudioExit body rmOk).2 = 1 ∧
    (transcribeAudioExit body rmOk).1.1 = body ∧
    (transcribeAudioExit body rmOk).1.2 = !rmOk := by
  cases rmOk <;>
    simp [transcribeAudioExit, cleanupFinaliser, rmCall, jsTryFinally]

/-! Helper lemma for the validation claim. -/

theorem validation_failed_msg_ne (e : String) :
    ("Validation failed: " ++ e) ≠ "" := by
  intro h
  have h2 : ("Validation failed: " ++ e).length = (0 : ℕ) := by rw [h]; rfl
  rw [String.length_append] at h2
  have h3 : ("Validation failed: " : String).length = 19 := rfl
  omega

/-- C10: `validateAudioFile` always resolves with a result object (total
by construction, every exception being absorbed into an invalid result):
a non-existent file yields `File does not exist`, an existing zero-byte
file yields `File is empty`, an internal exception yields an invalid
result carrying `Validation failed: …`, and every invalid result carries a
non-empty error string. -/
theorem validateAudioFile_total_and_safe (env : ValidateEnv) :
    (env.existsOnDisk = false →
      validateAudioFile env = ⟨false, none, some "File does not exist"⟩) ∧
    (env.existsOnDisk = true → env.statResult = .ok 0 →
      validateAudioFile env = ⟨false, none, some "File is empty"⟩) ∧
    (∀ e, env.existsOnDisk = true → env.statResult = .error e →
      validateAudioFile env = ⟨false, none, some ("Validation failed: " ++ e)⟩) ∧
    ((validateAudioFile env).isValid = false →
      ∃ msg, (validateAudioFile env).error = some msg ∧ msg ≠ "") := by
  obtain ⟨ex, st, det, md, extn⟩ := env
  refine ⟨?_, ?_, ?_, ?_⟩
  · intro h
    subst h
    rfl
  · intro h1 h2
    subst h1
    subst h2
    rfl
  · intro e h1 h2
    subst h1
    subst h2
    rfl
  · intro hinv
    cases ex with
    | false =>
        exact ⟨"File does not exist", rfl, by decide⟩
    | true =>
        cases st with
        | error e =>
            exact ⟨"Validation failed: " ++ e, rfl, validation_failed_msg_ne e⟩
        | ok size =>
            by_cases hsz : size = 0
            · subst hsz
              exact ⟨"File is empty", rfl, by decide⟩
            · cases det with
              | some fmt =>
                  cases md with
                  | none =>
                      exact absurd hinv (by
                        simp [validateAudioFile, validateAudioFileBody, hsz])
                  | some m =>
                      exact absurd hinv (by
                        simp [validateAudioFile, validateAudioFileBody, hsz])
              | none =>
                  cases md with
                  | none =>
                      refine ⟨"Unsupported audio format", ?_, by decide⟩
                      simp [validateAudioFile, validateAudioFileBody, hsz]
                  | some m =>
                      by_cases hdur : 0 < m.duration
                      · exact absurd hinv (by
                          simp [validateAudioFile, validateAudioFileBody, hsz, hdur])
                      · refine ⟨"Unsupported audio format", ?_, by decide⟩
                        simp [validateAudioFile, validateAudioFileBody, hsz, hdur]

/-- C10 witness: the three failure shapes at concrete environments. -/
theorem validateAudioFile_total_and_safe_witness :
    validateAudioFile envFileMissing = ⟨false, none, some "File does not exist"⟩ ∧
    validateAudioFile envFileEmpty = ⟨false, none, some "File is empty"⟩ ∧
    validateAudioFile envStatThrows =
      ⟨false, none, some ("Validation failed: " ++ "boom")⟩ :=
  ⟨(validateAudioFile_total_and_safe envFileMissing).1 rfl,
    (validateAudioFile_total_and_safe envFileEmpty).2.1 rfl rfl,
    (validateAudioFile_total_and_safe envStatThrows).2.2.1 "boom" rfl rfl⟩

end Voxscribe
